import Mathlib

/-!
Verification of the store_go HTTP file-storage service (src/main.go).

The Go program is shallowly embedded: paths are lists of characters,
the filesystem is an association list from cleaned paths to nodes, and each
HTTP handler is a pure function from a request and a filesystem to a new
filesystem and a response.  The lexical path functions mirror Go's
`path/filepath` package (Clean, Join, Dir, Base) on slash-separated paths.
-/

namespace StoreGo

/-- Split a character list on the slash character, keeping empty segments,
mirroring how `filepath.Clean` scans slash-separated elements. -/
def splitSlash : List Char → List (List Char)
  | [] => [[]]
  | c :: cs =>
    if c = '/' then [] :: splitSlash cs
    else
      match splitSlash cs with
      | [] => [[c]]
      | h :: t => (c :: h) :: t

/-- Rejoin segments with single slashes (inverse of `splitSlash` on
slash-free segments). -/
def interc : List (List Char) → List Char
  | [] => []
  | [s] => s
  | s :: rest => s ++ '/' :: interc rest

/-- Does the path begin with a slash (an absolute path)? -/
def isRooted : List Char → Bool
  | [] => false
  | c :: _ => decide (c = '/')

/-- One step of `filepath.Clean`'s element processing: drop empty and `.`
elements, let `..` consume the previous element (or keep it at the front of
a relative path; drop it at the root of an absolute path). -/
def cleanStep (rooted : Bool) (out : List (List Char)) (seg : List Char) :
    List (List Char) :=
  if seg = [] ∨ seg = ['.'] then out
  else if seg = ['.', '.'] then
    match out.getLast? with
    | some l => if l = ['.', '.'] then out ++ [seg] else out.dropLast
    | none => if rooted then [] else [seg]
  else out ++ [seg]

/-- The lexical simplification `filepath.Clean` performs: collapse repeated
slashes, eliminate `.` and `..` elements, return `.` for an empty result. -/
def Clean (p : List Char) : List Char :=
  if p = [] then ['.']
  else
    let rooted := isRooted p
    let out := interc ((splitSlash p).foldl (cleanStep rooted) [])
    if rooted then '/' :: out
    else if out = [] then ['.'] else out

/-- `filepath.Join` on two elements: empty elements are skipped and the
rest are joined with a slash and cleaned; all-empty input yields the empty
string. -/
def Join (a b : List Char) : List Char :=
  if a = [] then (if b = [] then [] else Clean b)
  else if b = [] then Clean a
  else Clean (a ++ '/' :: b)

/-- `filepath.Dir`: everything up to and including the final slash,
cleaned (`.` when there is no slash). -/
def Dir (p : List Char) : List Char :=
  Clean ((p.reverse.dropWhile (fun c => !(c = '/' : Bool))).reverse)

/-- `filepath.Base`: the last element of the path after trailing slashes
are removed; `.` for the empty path, `/` for all-slash paths. -/
def Base (p : List Char) : List Char :=
  if p = [] then ['.']
  else
    let q := (p.reverse.dropWhile (fun c => (c = '/' : Bool))).reverse
    let b := (q.reverse.takeWhile (fun c => !(c = '/' : Bool))).reverse
    if b = [] then ['/'] else b

/-- A plain path element: nonempty, not `.` or `..`, and slash-free.
Paths built from such segments are untouched by `Clean`. -/
def goodSeg (s : List Char) : Prop :=
  s ≠ [] ∧ s ≠ ['.'] ∧ s ≠ ['.', '.'] ∧ '/' ∉ s

instance (s : List Char) : Decidable (goodSeg s) := by
  unfold goodSeg; infer_instance

/-- The storage root directory of the service, `data`. -/
def dataRoot : List Char := ['d', 'a', 't', 'a']

example : Clean "data//a/./b".data = "data/a/b".data := by decide
example : Clean "data/x/..".data = "data".data := by decide
example : Join dataRoot "/a".data = "data/a".data := by decide
example : Join dataRoot "../../x".data = "../x".data := by decide
example : Dir "/a/b.txt".data = "/a".data := by decide
example : Base "/a/b.txt".data = "b.txt".data := by decide
example : Dir "b.txt".data = ['.'] := by decide
example : Join dataRoot ['.'] = dataRoot := by decide
example : Join dataRoot "/".data = dataRoot := by decide
example : Join dataRoot "x/..".data = dataRoot := by decide

/-! ## Filesystem model

The store is an association list from cleaned path strings to nodes.
Timestamps are abstracted as natural numbers; handler functions that stamp
files take the current time as an argument.  An `unreadable` entry models a
path on which `os.Stat` fails with an error other than not-exist. -/

/-- A filesystem node: a directory or a regular file with byte content. -/
inductive FsNode : Type
  | dir (mtime : Nat)
  | file (content : List Nat) (mtime : Nat)
deriving DecidableEq

/-- An entry of the modelled filesystem: a proper node, or a path whose
`stat` fails with a non-not-exist error (permissions, I/O). -/
inductive FsEntry : Type
  | node (n : FsNode)
  | unreadable
deriving DecidableEq

/-- The filesystem state: an association list keyed by cleaned paths. -/
structure Fs : Type where
  entries : List (List Char × FsEntry)
deriving DecidableEq

/-- First-match association-list lookup. -/
def lookupFs : List (List Char × FsEntry) → List Char → Option FsEntry
  | [], _ => none
  | (k, v) :: rest, p => if k = p then some v else lookupFs rest p

/-- The two classes of `stat` failure the Go code distinguishes via
`os.IsNotExist`. -/
inductive StatErr : Type
  | notExist
  | other
deriving DecidableEq

/-- `os.IsNotExist` on a stat error. -/
def isNotExist : StatErr → Bool
  | .notExist => true
  | .other => false

/-- `os.Stat` on the modelled filesystem. -/
def statFs (fs : Fs) (p : List Char) : Except StatErr FsNode :=
  match lookupFs fs.entries p with
  | none => .error .notExist
  | some .unreadable => .error .other
  | some (.node n) => .ok n

/-- `os.MkdirAll`, fuelled recursion over parent directories: succeeds if
the path is already a directory, fails if any existing ancestor is not a
directory, and otherwise creates the missing chain of directories. -/
def mkdirAllAux (now : Nat) : Nat → Fs → List Char → Option Fs
  | 0, _, _ => none
  | fuel + 1, fs, p =>
    match lookupFs fs.entries p with
    | some (.node (.dir _)) => some fs
    | some _ => none
    | none =>
      if p = [] ∨ p = ['.'] ∨ p = ['/'] then none
      else
        match mkdirAllAux now fuel fs (Dir p) with
        | none => none
        | some fs2 => some ⟨(p, .node (.dir now)) :: fs2.entries⟩

/-- `os.MkdirAll` with enough fuel for any parent chain of `p`. -/
def mkdirAll (now : Nat) (fs : Fs) (p : List Char) : Option Fs :=
  mkdirAllAux now (p.length + 1) fs p

/-- `os.Create` followed by `io.Copy`: truncating creation of a file with
the given content.  Fails if the path is an existing directory or
unreadable entry, or if the parent is not an existing directory. -/
def createFile (now : Nat) (fs : Fs) (p : List Char) (content : List Nat) :
    Option Fs :=
  match lookupFs fs.entries p with
  | some (.node (.dir _)) => none
  | some .unreadable => none
  | _ =>
    match lookupFs fs.entries (Dir p) with
    | some (.node (.dir _)) =>
      some ⟨(p, .node (.file content now)) ::
            fs.entries.filter (fun kv => decide (kv.1 ≠ p))⟩
    | _ => none

/-- Prefix removal: `dropPre p k` returns the remainder of `k` after the
prefix `p`, if `p` is a prefix of `k`. -/
def dropPre : List Char → List Char → Option (List Char)
  | [], k => some k
  | _, [] => none
  | a :: p, b :: k => if a = b then dropPre p k else none

/-- Is `k` the path `p` itself or lexically beneath it? -/
def underPath (p k : List Char) : Bool :=
  decide (k = p) ||
    (match dropPre p k with
     | some ('/' :: _) => true
     | _ => false)

/-- `os.RemoveAll`: removes the path and everything beneath it. -/
def removeAll (fs : Fs) (p : List Char) : Fs :=
  ⟨fs.entries.filter (fun kv => !underPath p kv.1)⟩

/-- If `k` names an immediate child of directory `p`, return the child's
name (nonempty, slash-free). -/
def childName (p k : List Char) : Option (List Char) :=
  match dropPre p k with
  | some ('/' :: name) =>
    if name ≠ [] ∧ '/' ∉ name then some name else none
  | _ => none

/-- A directory entry as produced by the listing operation
(`ListEntry` in the Go source: name, is_dir flag, modification time). -/
structure LEntry : Type where
  name : List Char
  is_dir : Bool
  date : Nat
deriving DecidableEq

/-- The `FileInfo` data recorded for one child in a `Readdir` listing. -/
def entryOf (name : List Char) : FsEntry → LEntry
  | .node (.dir m) => ⟨name, true, m⟩
  | .node (.file _ m) => ⟨name, false, m⟩
  | .unreadable => ⟨name, false, 0⟩

/-- The immediate children of directory `p` in the filesystem. -/
def childrenOf (fs : Fs) (p : List Char) : List LEntry :=
  fs.entries.filterMap fun kv => (childName p kv.1).map fun n => entryOf n kv.2

/-! ## HTTP model

Requests carry the URL path, the header list, the JSON-decoded `{path}`
body (`none` when decoding fails) and the multipart `file` field (`none`
when `r.FormFile` fails).  Responses carry the status code, the response
headers and a body that is JSON, plain text, or raw bytes.  JSON object
fields are listed in the order Go's `encoding/json` emits them (struct
field order for structs, sorted keys for maps). -/

/-- A JSON value, distinguishing `null` from the empty array exactly as
Go's `encoding/json` does for nil versus empty slices. -/
inductive Jval : Type
  | num (n : Int)
  | str (s : String)
  | bool (b : Bool)
  | null
  | arr (elems : List Jval)
  | obj (fields : List (String × Jval))

/-- A response body: a JSON document, plain text, or streamed file bytes. -/
inductive RespBody : Type
  | json (v : Jval)
  | text (s : String)
  | bytes (b : List Nat)

/-- An HTTP response: status code, headers, body. -/
structure Response : Type where
  code : Nat
  headers : List (String × String)
  body : RespBody

/-- An HTTP request as the handlers consume it: URL path, headers, the
JSON-decoded `path` field of the body, and the received multipart file. -/
structure Request : Type where
  urlPath : String
  headers : List (String × String)
  bodyPath : Option String
  formFile : Option (List Nat)

/-- A handler maps a request and the filesystem to a new filesystem and a
response. -/
def Handler : Type := Request → Fs → Fs × Response

/-- `http.Header.Get`: the first value for the key, or the empty string
when the header is absent. -/
def headerGet : List (String × String) → String → String
  | [], _ => ""
  | (k, v) :: rest, n => if k = n then v else headerGet rest n

/-- `sendJSONResponse` in the source: a 200 code yields
`{"message": m, "status": 1}`, anything else `{"message": m, "status": 0}`
(Go sorts map keys, so `message` precedes `status`). -/
def sendJSONResponse (code : Nat) (msg : String) : Response :=
  if code = 200 then
    ⟨200, [("Content-Type", "application/json")],
     .json (.obj [("message", .str msg), ("status", .num 1)])⟩
  else
    ⟨code, [("Content-Type", "application/json")],
     .json (.obj [("message", .str msg), ("status", .num 0)])⟩

/-- JSON encoding of one listing entry (`ListEntry`), in struct field
order. -/
def entryJson (e : LEntry) : Jval :=
  .obj [("name", .str (String.mk e.name)), ("is_dir", .bool e.is_dir),
        ("date", .num e.date)]

/-- JSON encoding of the `content` slice of a `ListResponse`: Go marshals
a nil slice as `null` and a non-nil slice as an array. -/
def contentJson : Option (List LEntry) → Jval
  | none => .null
  | some es => .arr (es.map entryJson)

/-- `sendListResponse` in the source: a `ListResponse` in struct field
order, with the message overwritten by the `message` argument. -/
def sendListResponse (code : Nat) (msg : String) (status : Int)
    (content : Option (List LEntry)) : Response :=
  ⟨code, [("Content-Type", "application/json")],
   .json (.obj [("status", .num status), ("message", .str msg),
                ("content", contentJson content)])⟩

/-- `sendDeleteResponse` in the source: a `DeleteResponse` in struct field
order. -/
def sendDeleteResponse (code : Nat) (status : Int) (msg : String) :
    Response :=
  ⟨code, [("Content-Type", "application/json")],
   .json (.obj [("status", .num status), ("message", .str msg)])⟩

/-- `http.Error`: plain-text error body with a trailing newline. -/
def httpError (msg : String) (code : Nat) : Response :=
  ⟨code,
   [("Content-Type", "text/plain; charset=utf-8"),
    ("X-Content-Type-Options", "nosniff")],
   .text (msg ++ "\n")⟩

/-! ## Handlers -/

/-- `TokenMiddleware`: compare the `Authorization` header with the
configured token; mismatch yields 401 without invoking the wrapped
handler. -/
def TokenMiddleware (next : Handler) (validToken : String) : Handler :=
  fun r fs =>
    let token := headerGet r.headers "Authorization"
    if token ≠ validToken then (fs, httpError "Invalid token" 401)
    else next r fs

/-- The `/get/` URL prefix is five bytes; the rest of the URL path is the
client-supplied file path. -/
def pathAfterGet (u : String) : List Char := u.data.drop 5

/-- `getFileHandler`: resolve the path after `/get/` under the storage
root, stat it, 404 on not-exist or directory, 500 on other stat errors,
otherwise stream the file with attachment headers. -/
def getFileHandler : Handler :=
  fun r fs =>
    let fullPath := Join dataRoot (pathAfterGet r.urlPath)
    match statFs fs fullPath with
    | .error e =>
      if isNotExist e then (fs, sendJSONResponse 404 "资源文件不存在")
      else (fs, sendJSONResponse 500 "服务器错误，请稍后重试")
    | .ok info =>
      match info with
      | .dir _ => (fs, sendJSONResponse 404 "资源文件不存在")
      | .file content _ =>
        (fs, ⟨200,
              [("Content-Type", "application/octet-stream"),
               ("Content-Disposition",
                "attachment; filename=" ++ String.mk (Base fullPath))],
              .bytes content⟩)

/-- `uploadHandler`: destination from the `X-FormFile-Path` header, file
from the multipart form; create the parent directory when the stat reports
not-exist, then create the file and copy the payload. -/
def uploadHandler (now : Nat) : Handler :=
  fun r fs =>
    let path := headerGet r.headers "X-FormFile-Path"
    if path = "" then (fs, sendJSONResponse 400 "缺少存储路径")
    else
      match r.formFile with
      | none => (fs, sendJSONResponse 400 "接收文件失败")
      | some content =>
        let dir := Dir path.data
        let fullPath := Join dataRoot dir
        let afterMk : Option Fs :=
          match statFs fs fullPath with
          | .error .notExist => mkdirAll now fs fullPath
          | _ => some fs
        match afterMk with
        | none => (fs, sendJSONResponse 500 "创建目录失败")
        | some fs2 =>
          let newFilePath := Join fullPath (Base path.data)
          match createFile now fs2 newFilePath content with
          | none => (fs2, sendJSONResponse 500 "创建文件失败")
          | some fs3 => (fs3, sendJSONResponse 200 "文件上传成功")

/-- `listDirectory`: open the directory and read its entries; any non-dir
target is an error; a childless directory yields Go's nil slice. -/
def listDirectory (fs : Fs) (p : List Char) :
    Except Unit (Option (List LEntry)) :=
  match lookupFs fs.entries p with
  | some (.node (.dir _)) =>
    match childrenOf fs p with
    | [] => .ok none
    | es => .ok (some es)
  | _ => .error ()

/-- `listHandler`: decode `{path}`, resolve `""` to the storage root and
anything else to `data/` plus the path, treat any stat failure as a benign
missing directory, and otherwise list the children. -/
def listHandler : Handler :=
  fun r fs =>
    match r.bodyPath with
    | none => (fs, sendListResponse 400 "缺少必要参数" 0 (some []))
    | some p =>
      let pathStr := if p = "" then "data" else "data/" ++ p
      let fullPath := Clean pathStr.data
      match statFs fs fullPath with
      | .error _ => (fs, sendListResponse 200 "该目录不存在" 0 (some []))
      | .ok _ =>
        match listDirectory fs fullPath with
        | .error _ => (fs, sendListResponse 500 "无法列出目录内容" 0 (some []))
        | .ok entries => (fs, sendListResponse 200 "success" 1 entries)

/-- `deleteHandler`: decode `{path}` (must be nonempty), join it onto the
storage root, report a missing target as a benign 200, and otherwise
remove the target recursively. -/
def deleteHandler : Handler :=
  fun r fs =>
    match r.bodyPath with
    | none => (fs, sendDeleteResponse 400 0 "缺少必要参数")
    | some p =>
      if p = "" then (fs, sendDeleteResponse 400 0 "缺少路径参数")
      else
        let fullPath := Join dataRoot p.data
        match statFs fs fullPath with
        | .error .notExist => (fs, sendDeleteResponse 200 0 "文件或目录不存在")
        | .error .other => (fs, sendDeleteResponse 500 0 "无法获取文件或目录信息")
        | .ok _ => (removeAll fs fullPath, sendDeleteResponse 200 1 "删除成功")

/-- The filesystem holding only the `data` directory main creates at
startup. -/
def fs0 : Fs := ⟨[(dataRoot, .node (.dir 0))]⟩

/-! ## Lexical path algebra

Paths assembled from plain segments (`goodSeg`) are fixed points of
`Clean`, and on such paths `Join`, `Dir` and `Base` interact the way the
upload/download round trip needs. -/

theorem splitSlash_ne_nil (l : List Char) : splitSlash l ≠ [] := by
  match l with
  | [] => simp [splitSlash]
  | c :: cs =>
    simp only [splitSlash]
    by_cases hc : c = '/'
    · simp [hc]
    · simp only [if_neg hc]
      cases h : splitSlash cs <;> simp

theorem splitSlash_noSlash (s : List Char) (h : '/' ∉ s) :
    splitSlash s = [s] := by
  induction s with
  | nil => simp [splitSlash]
  | cons c cs ih =>
    have hc : ¬ c = '/' := by
      intro hv; exact h (hv ▸ List.mem_cons_self c cs)
    have hcs : '/' ∉ cs := fun hm => h (List.mem_cons_of_mem c hm)
    simp only [splitSlash, if_neg hc, ih hcs]

theorem splitSlash_append (s t : List Char) (h : '/' ∉ s) :
    splitSlash (s ++ '/' :: t) = s :: splitSlash t := by
  induction s with
  | nil => simp [splitSlash]
  | cons c cs ih =>
    have hc : ¬ c = '/' := by
      intro hv; exact h (hv ▸ List.mem_cons_self c cs)
    have hcs : '/' ∉ cs := fun hm => h (List.mem_cons_of_mem c hm)
    simp only [List.cons_append, splitSlash, if_neg hc, List.append_eq,
      ih hcs]

theorem interc_cons (s : List Char) (rest : List (List Char))
    (h : rest ≠ []) : interc (s :: rest) = s ++ '/' :: interc rest := by
  match rest with
  | [] => exact absurd rfl h
  | r :: t => rfl

theorem splitSlash_interc (segs : List (List Char)) (hne : segs ≠ [])
    (h : ∀ s ∈ segs, '/' ∉ s) : splitSlash (interc segs) = segs := by
  induction segs with
  | nil => exact absurd rfl hne
  | cons s rest ih =>
    match rest with
    | [] => exact splitSlash_noSlash s (h s (List.mem_cons_self s []))
    | r :: t =>
      rw [interc_cons s (r :: t) (by simp),
        splitSlash_append s _ (h s (List.mem_cons_self s (r :: t))),
        ih (by simp) (fun x hx => h x (List.mem_cons_of_mem s hx))]

theorem splitSlash_interc_append (segs : List (List Char)) (t : List Char)
    (hne : segs ≠ []) (h : ∀ s ∈ segs, '/' ∉ s) :
    splitSlash (interc segs ++ '/' :: t) = segs ++ splitSlash t := by
  induction segs with
  | nil => exact absurd rfl hne
  | cons s rest ih =>
    match rest with
    | [] =>
      simpa using splitSlash_append s t (h s (List.mem_cons_self s []))
    | r :: tl =>
      rw [interc_cons s (r :: tl) (by simp), List.append_assoc,
        List.cons_append,
        splitSlash_append s _ (h s (List.mem_cons_self s (r :: tl))),
        ih (by simp) (fun x hx => h x (List.mem_cons_of_mem s hx))]
      rfl

theorem foldl_cleanStep_good (segs : List (List Char))
    (h : ∀ s ∈ segs, goodSeg s) (r : Bool) :
    ∀ out, segs.foldl (cleanStep r) out = out ++ segs := by
  induction segs with
  | nil => intro out; simp
  | cons s rest ih =>
    intro out
    have hs : goodSeg s := h s (List.mem_cons_self s rest)
    have hstep : cleanStep r out s = out ++ [s] := by
      unfold cleanStep
      rw [if_neg (by push_neg; exact ⟨hs.1, hs.2.1⟩), if_neg hs.2.2.1]
    rw [List.foldl_cons, hstep,
      ih (fun x hx => h x (List.mem_cons_of_mem s hx)) (out ++ [s]),
      List.append_assoc]
    rfl

theorem interc_cons_shape (s : List Char) (t : List (List Char)) :
    ∃ x, interc (s :: t) = s ++ x := by
  match t with
  | [] => exact ⟨[], by simp [interc]⟩
  | r :: tl => exact ⟨'/' :: interc (r :: tl), rfl⟩

theorem interc_ne_nil (s : List Char) (t : List (List Char))
    (h : s ≠ []) : interc (s :: t) ≠ [] := by
  obtain ⟨x, hx⟩ := interc_cons_shape s t
  rw [hx]
  simp [h]

theorem isRooted_interc_append (s : List Char) (t : List (List Char))
    (r : List Char) (hne : s ≠ []) (h : '/' ∉ s) :
    isRooted (interc (s :: t) ++ r) = false := by
  obtain ⟨x, hx⟩ := interc_cons_shape s t
  rw [hx]
  match s with
  | [] => exact absurd rfl hne
  | c :: cs =>
    have hc : ¬ c = '/' := by
      intro hv; exact h (hv ▸ List.mem_cons_self c cs)
    simp [isRooted, hc]

theorem noSlash_of_good (segs : List (List Char))
    (h : ∀ s ∈ segs, goodSeg s) : ∀ s ∈ segs, '/' ∉ s :=
  fun s hs => (h s hs).2.2.2

/-- A path assembled from plain segments is a fixed point of `Clean`. -/
theorem clean_good (segs : List (List Char)) (hne : segs ≠ [])
    (h : ∀ s ∈ segs, goodSeg s) : Clean (interc segs) = interc segs := by
  match segs, hne with
  | s :: t, _ =>
    have hs : goodSeg s := h s (List.mem_cons_self s t)
    have hpne : interc (s :: t) ≠ [] := interc_ne_nil s t hs.1
    have hroot : isRooted (interc (s :: t)) = false := by
      simpa using isRooted_interc_append s t [] hs.1 hs.2.2.2
    simp only [Clean, if_neg hpne, hroot,
      splitSlash_interc (s :: t) (by simp) (noSlash_of_good (s :: t) h),
      foldl_cleanStep_good (s :: t) h false [], List.nil_append,
      Bool.false_eq_true, if_false, if_neg hpne]

/-- `Clean` also strips one trailing slash off such a path. -/
theorem clean_good_trailing (segs : List (List Char)) (hne : segs ≠ [])
    (h : ∀ s ∈ segs, goodSeg s) :
    Clean (interc segs ++ ['/']) = interc segs := by
  match segs, hne with
  | s :: t, _ =>
    have hs : goodSeg s := h s (List.mem_cons_self s t)
    have hpne : interc (s :: t) ≠ [] := interc_ne_nil s t hs.1
    have hapne : interc (s :: t) ++ ['/'] ≠ [] := by simp
    have hroot : isRooted (interc (s :: t) ++ ['/']) = false :=
      isRooted_interc_append s t ['/'] hs.1 hs.2.2.2
    have hsplit : splitSlash (interc (s :: t) ++ ['/']) =
        (s :: t) ++ [[]] :=
      splitSlash_interc_append (s :: t) [] (by simp)
        (noSlash_of_good (s :: t) h)
    have hfold : ((s :: t) ++ [[]]).foldl (cleanStep false) [] = s :: t := by
      rw [List.foldl_append, foldl_cleanStep_good (s :: t) h false []]
      simp [cleanStep]
    simp only [Clean, if_neg hapne, hroot, hsplit, hfold,
      List.nil_append, Bool.false_eq_true, if_false, if_neg hpne]

theorem interc_concat (init : List (List Char)) (l : List Char)
    (h : init ≠ []) : interc (init ++ [l]) = interc init ++ '/' :: l := by
  induction init with
  | nil => exact absurd rfl h
  | cons x rest ih =>
    match rest with
    | [] => rfl
    | y :: t =>
      rw [List.cons_append, interc_cons x ((y :: t) ++ [l]) (by simp),
        ih (by simp), interc_cons x (y :: t) (by simp)]
      simp [List.append_assoc]

theorem dropWhile_notSlash_all (l : List Char) (h : '/' ∉ l) :
    List.dropWhile (fun c => !(c = '/' : Bool)) l = [] := by
  induction l with
  | nil => rfl
  | cons c cs ih =>
    have hc : ¬ c = '/' := by
      intro hv; exact h (hv ▸ List.mem_cons_self c cs)
    have hcs : '/' ∉ cs := fun hm => h (List.mem_cons_of_mem c hm)
    simp [List.dropWhile_cons, hc, ih hcs]

theorem dropWhile_notSlash_append (l t : List Char) (h : '/' ∉ l) :
    List.dropWhile (fun c => !(c = '/' : Bool)) (l ++ '/' :: t) =
      '/' :: t := by
  induction l with
  | nil => simp [List.dropWhile_cons]
  | cons c cs ih =>
    have hc : ¬ c = '/' := by
      intro hv; exact h (hv ▸ List.mem_cons_self c cs)
    have hcs : '/' ∉ cs := fun hm => h (List.mem_cons_of_mem c hm)
    simp [List.dropWhile_cons, hc, ih hcs]

theorem dropWhile_slash_cons (c : Char) (t : List Char) (hc : c ≠ '/') :
    List.dropWhile (fun x => (x = '/' : Bool)) (c :: t) = c :: t := by
  simp [List.dropWhile_cons, hc]

theorem takeWhile_notSlash_all (l : List Char) (h : '/' ∉ l) :
    List.takeWhile (fun c => !(c = '/' : Bool)) l = l := by
  induction l with
  | nil => rfl
  | cons c cs ih =>
    have hc : ¬ c = '/' := by
      intro hv; exact h (hv ▸ List.mem_cons_self c cs)
    have hcs : '/' ∉ cs := fun hm => h (List.mem_cons_of_mem c hm)
    simp [List.takeWhile_cons, hc, ih hcs]

theorem takeWhile_notSlash_append (l t : List Char) (h : '/' ∉ l) :
    List.takeWhile (fun c => !(c = '/' : Bool)) (l ++ '/' :: t) = l := by
  induction l with
  | nil => simp [List.takeWhile_cons]
  | cons c cs ih =>
    have hc : ¬ c = '/' := by
      intro hv; exact h (hv ▸ List.mem_cons_self c cs)
    have hcs : '/' ∉ cs := fun hm => h (List.mem_cons_of_mem c hm)
    simp [List.takeWhile_cons, hc, ih hcs]

/-- `Dir` of a single plain segment is `.`, as for any slash-free path. -/
theorem Dir_noSlash (s : List Char) (h : '/' ∉ s) : Dir s = ['.'] := by
  unfold Dir
  rw [dropWhile_notSlash_all s.reverse (by simpa using h)]
  rfl

/-- `Dir` of a multi-segment plain path drops the final segment. -/
theorem Dir_concat (init : List (List Char)) (l : List Char)
    (hne : init ≠ []) (hl : '/' ∉ l) :
    Dir (interc (init ++ [l])) = Clean (interc init ++ ['/']) := by
  unfold Dir
  rw [interc_concat init l hne]
  have hrev : (interc init ++ '/' :: l).reverse =
      l.reverse ++ '/' :: (interc init).reverse := by
    simp [List.reverse_append]
  rw [hrev, dropWhile_notSlash_append l.reverse (interc init).reverse
    (by simpa using hl)]
  simp

/-- `Base` of a slash-free nonempty path is the path itself. -/
theorem Base_noSlash (s : List Char) (hne : s ≠ []) (h : '/' ∉ s) :
    Base s = s := by
  have hrevne : s.reverse ≠ [] := by simpa using hne
  match hr : s.reverse, hrevne with
  | c :: cs, _ =>
    have hc : c ≠ '/' := by
      intro hv
      exact h (by
        have : c ∈ s.reverse := hr ▸ List.mem_cons_self c cs
        simpa [hv] using this)
    have hdrop : List.dropWhile (fun x => (x = '/' : Bool)) s.reverse =
        s.reverse := by
      rw [hr]; exact dropWhile_slash_cons c cs hc
    have htake : List.takeWhile (fun x => !(x = '/' : Bool)) s.reverse =
        s.reverse :=
      takeWhile_notSlash_all s.reverse (by simpa using h)
    simp only [Base, hdrop, List.reverse_reverse, htake, if_neg hne]

/-- `Base` of a multi-segment plain path is the final segment. -/
theorem Base_concat (init : List (List Char)) (l : List Char)
    (hne : init ≠ []) (hl0 : l ≠ []) (hl : '/' ∉ l) :
    Base (interc (init ++ [l])) = l := by
  rw [interc_concat init l hne]
  have hpne : interc init ++ '/' :: l ≠ [] := by simp
  have hrev : (interc init ++ '/' :: l).reverse =
      l.reverse ++ '/' :: (interc init).reverse := by
    simp [List.reverse_append]
  have hlrevne : l.reverse ≠ [] := by simpa using hl0
  match hr : l.reverse, hlrevne with
  | c :: cs, _ =>
    have hc : c ≠ '/' := by
      intro hv
      exact hl (by
        have : c ∈ l.reverse := hr ▸ List.mem_cons_self c cs
        simpa [hv] using this)
    have hdrop : List.dropWhile (fun x => (x = '/' : Bool))
        ((interc init ++ '/' :: l).reverse) =
        (interc init ++ '/' :: l).reverse := by
      rw [hrev, hr, List.cons_append]
      rw [dropWhile_slash_cons c (cs ++ '/' :: (interc init).reverse) hc]
    have htake : List.takeWhile (fun x => !(x = '/' : Bool))
        ((interc init ++ '/' :: l).reverse) = l.reverse := by
      rw [hrev,
        takeWhile_notSlash_append l.reverse (interc init).reverse
          (by simpa using hl)]
    simp only [Base, hdrop, List.reverse_reverse, htake, if_neg hpne,
      if_neg hl0]

theorem join_nonempty (a b : List Char) (ha : a ≠ []) (hb : b ≠ []) :
    Join a b = Clean (a ++ '/' :: b) := by
  simp [Join, if_neg ha, if_neg hb]

/-- The central round-trip fact: the upload handler's file path
`Join (Join "data" (Dir p)) (Base p)` equals the download handler's
resolved path `Join "data" p` whenever `p` is assembled from plain
segments. -/
theorem uploadPath_eq (segs : List (List Char)) (hne : segs ≠ [])
    (h : ∀ s ∈ segs, goodSeg s) :
    Join (Join dataRoot (Dir (interc segs))) (Base (interc segs)) =
      Join dataRoot (interc segs) := by
  rcases segs.eq_nil_or_concat' with rfl | ⟨init, l, rfl⟩
  · exact absurd rfl hne
  · have hl : goodSeg l := h l (by simp)
    match init with
    | [] =>
      simp only [List.nil_append]
      rw [show interc [l] = l from rfl, Dir_noSlash l hl.2.2.2,
        show Join dataRoot ['.'] = dataRoot from by decide,
        Base_noSlash l hl.1 hl.2.2.2]
    | i0 :: irest =>
      have hgi : ∀ s ∈ i0 :: irest, goodSeg s :=
        fun s hs => h s (List.mem_append_left _ hs)
      have hi0 : goodSeg i0 := hgi i0 (by simp)
      have hIne : interc (i0 :: irest) ≠ [] :=
        interc_ne_nil i0 irest hi0.1
      have hgD : ∀ s ∈ dataRoot :: i0 :: irest, goodSeg s := by
        intro s hs
        rcases List.mem_cons.mp hs with rfl | hs2
        · decide
        · exact hgi s hs2
      have hgDl : ∀ s ∈ dataRoot :: i0 :: (irest ++ [l]), goodSeg s := by
        intro s hs
        rcases List.mem_cons.mp hs with rfl | hs2
        · decide
        · exact h s (by simpa using hs2)
      have hdir : Dir (interc ((i0 :: irest) ++ [l])) =
          interc (i0 :: irest) := by
        rw [Dir_concat (i0 :: irest) l (by simp) hl.2.2.2,
          clean_good_trailing (i0 :: irest) (by simp) hgi]
      have hbase : Base (interc ((i0 :: irest) ++ [l])) = l :=
        Base_concat (i0 :: irest) l (by simp) hl.1 hl.2.2.2
      have hjoin1 : Join dataRoot (interc (i0 :: irest)) =
          interc (dataRoot :: i0 :: irest) := by
        rw [join_nonempty dataRoot _ (by decide) hIne,
          ← interc_cons dataRoot (i0 :: irest) (by simp),
          clean_good (dataRoot :: i0 :: irest) (by simp) hgD]
      have hIl : interc ((i0 :: irest) ++ [l]) ≠ [] := by
        rw [List.cons_append]
        exact interc_ne_nil i0 _ hi0.1
      rw [hdir, hbase, hjoin1,
        join_nonempty (interc (dataRoot :: i0 :: irest)) l
          (interc_ne_nil dataRoot _ (by decide)) hl.1,
        join_nonempty dataRoot (interc ((i0 :: irest) ++ [l]))
          (by decide) hIl,
        ← interc_concat (dataRoot :: i0 :: irest) l (by simp),
        ← interc_cons dataRoot ((i0 :: irest) ++ [l]) (by simp)]
      simp only [List.cons_append]

theorem string_mk_ne_empty (l : List Char) (h : l ≠ []) :
    String.mk l ≠ "" := by
  intro hc
  exact h (congrArg String.data hc)

/-- The list handler's resolution of a nonempty client path coincides with
the `filepath.Join` used by the download and delete handlers. -/
theorem clean_dataSlash (p : String) (hp : p ≠ "") :
    Clean ("data/" ++ p).data = Join dataRoot p.data := by
  match p with
  | String.mk pd =>
    have hpd : pd ≠ [] := by
      intro hc
      exact hp (by rw [hc])
    rw [join_nonempty dataRoot pd (by decide) hpd]
    rfl

/-- The list handler's resolution of the empty client path is the storage
root. -/
theorem clean_data : Clean ("data" : String).data = dataRoot := by decide

/-- A successful `createFile` leaves the new file at the head of the
store, so a lookup of the created path yields the file. -/
theorem createFile_lookup (now : Nat) (fs : Fs) (p : List Char)
    (content : List Nat) (fs2 : Fs)
    (h : createFile now fs p content = some fs2) :
    lookupFs fs2.entries p = some (.node (.file content now)) := by
  unfold createFile at h
  split at h
  · exact absurd h (by simp)
  · exact absurd h (by simp)
  · split at h
    · simp only [Option.some.injEq] at h
      rw [← h]
      simp [lookupFs]
    · exact absurd h (by simp)

/-- A key absent from the header list looks up as the empty string. -/
theorem headerGet_absent (hs : List (String × String)) (k : String)
    (h : ∀ kv ∈ hs, kv.1 ≠ k) : headerGet hs k = "" := by
  induction hs with
  | nil => rfl
  | cons kv rest ih =>
    obtain ⟨a, b⟩ := kv
    have h1 : a ≠ k := h (a, b) (by simp)
    simp only [headerGet, if_neg h1]
    exact ih (fun x hx => h x (List.mem_cons_of_mem _ hx))

/-- The keys of a JSON object body, in emitted order. -/
def jsonKeys : RespBody → List String
  | .json (.obj l) => l.map (fun kv => kv.1)
  | _ => []

/-! ## Request and store fixtures used by the concrete theorems -/

/-- The spec's concrete upload: destination `/a/b.txt`, content "hello". -/
def uploadReq : Request :=
  ⟨"/upload", [("X-FormFile-Path", "/a/b.txt")], none,
   some [104, 101, 108, 108, 111]⟩

/-- POST /list with body `{}` (the decoded path is the empty string). -/
def emptyListReq : Request := ⟨"/list", [], some "", none⟩

/-- A request carrying no headers at all. -/
def noAuthReq : Request := ⟨"/list", [], none, none⟩

/-- A store holding the root and one stored file `data/x`. -/
def fsWithFile : Fs :=
  ⟨[(dataRoot, .node (.dir 0)), ("data/x".data, .node (.file [1] 0))]⟩

/-! ## The claims -/

/-- C1: the claim says a successful upload answers with the three fields
status, message and filePath.  The code's own `sendJSONResponse` builds the
200 body from only message and status; no filePath key is ever emitted, so
the success body of the documented concrete upload has exactly the keys
message and status. -/
theorem upload_success_body_lacks_filePath :
    (uploadHandler 7 uploadReq fs0).2 =
      ⟨200, [("Content-Type", "application/json")],
       .json (.obj [("message", .str "文件上传成功"), ("status", .num 1)])⟩ ∧
    jsonKeys (uploadHandler 7 uploadReq fs0).2.body = ["message", "status"] :=
  ⟨rfl, rfl⟩

/-- C2 counterexample: on the startup store, POST /list with body `{}`
answers 200 with `{"status":1,"message":"success","content":null}` — the
content field is JSON null (Go marshals the nil slice), not the empty
array the claim states. -/
theorem list_empty_store_content_null_cex :
    (listHandler emptyListReq fs0).2.code = 200 ∧
    (listHandler emptyListReq fs0).2.body =
      .json (.obj [("status", .num 1), ("message", .str "success"),
                   ("content", .null)]) ∧
    (listHandler emptyListReq fs0).2.body ≠
      .json (.obj [("status", .num 1), ("message", .str "success"),
                   ("content", .arr [])]) := by
  refine ⟨rfl, rfl, ?_⟩
  rw [show (listHandler emptyListReq fs0).2.body =
    .json (.obj [("status", .num 1), ("message", .str "success"),
                 ("content", .null)]) from rfl]
  simp

/-- C2 amended: a list request decoding to the empty path against an
existing childless storage root yields HTTP 200 and the body
`{"status":1,"message":"success","content":null}` — status 1 and message
"success" as claimed, but the content field is JSON null rather than an
empty array, because the Go code marshals the nil slice produced for a
childless directory. -/
theorem list_empty_dir_content_null (fs : Fs) (m : Nat) (u : String)
    (hd : List (String × String)) (hf : Option (List Nat))
    (hroot : lookupFs fs.entries dataRoot = some (.node (.dir m)))
    (hch : childrenOf fs dataRoot = []) :
    listHandler ⟨u, hd, some "", hf⟩ fs =
      (fs, ⟨200, [("Content-Type", "application/json")],
            .json (.obj [("status", .num 1), ("message", .str "success"),
                         ("content", .null)])⟩) := by
  unfold listHandler
  simp only [if_pos rfl, if_true, eq_self_iff_true, clean_data]
  rw [show Clean ['d', 'a', 't', 'a'] = dataRoot from by decide]
  rw [show statFs fs dataRoot = .ok (.dir m) from by
    unfold statFs; rw [hroot]]
  rw [show listDirectory fs dataRoot = .ok none from by
    unfold listDirectory; rw [hroot, hch]]
  rfl

/-- C3 counterexample: when the configured token is the empty string, a
request carrying no Authorization header is not rejected with 401 — the
wrapped list handler runs and answers 400 for its malformed body. -/
theorem token_empty_no_header_not_401 :
    noAuthReq.headers = [] ∧
    (TokenMiddleware listHandler "" noAuthReq fs0).2.code = 400 ∧
    (TokenMiddleware listHandler "" noAuthReq fs0).2.code ≠ 401 :=
  ⟨rfl, rfl, by decide⟩

/-- C3 amended: every request to a token-gated endpoint whose
Authorization header lookup (the empty string when the header is absent)
differs from the configured token gets 401, the wrapped handler is not
invoked (the result does not depend on it), and the filesystem is
unchanged.  When the configured token is empty, an absent header matches
it and is not rejected. -/
theorem auth_mismatch_rejected (next : Handler) (token : String)
    (r : Request) (fs : Fs)
    (h : headerGet r.headers "Authorization" ≠ token) :
    TokenMiddleware next token r fs = (fs, httpError "Invalid token" 401) := by
  simp [TokenMiddleware, h]

theorem auth_mismatch_rejected_witness :
    headerGet ([] : List (String × String)) "Authorization" ≠ "secret" ∧
    TokenMiddleware listHandler "secret" noAuthReq fs0 =
      (fs0, httpError "Invalid token" 401) :=
  ⟨by decide,
   auth_mismatch_rejected listHandler "secret" noAuthReq fs0 (by decide)⟩

/-- C4: the download handler reads nothing of the request but its URL
path, so its response is identical across any two values (or absence) of
the Authorization header — and of every other header and body field. -/
theorem get_ignores_auth (fs : Fs) (u : String)
    (h1 h2 : List (String × String)) (b1 b2 : Option String)
    (f1 f2 : Option (List Nat)) :
    getFileHandler ⟨u, h1, b1, f1⟩ fs = getFileHandler ⟨u, h2, b2, f2⟩ fs :=
  rfl

theorem list_empty_dir_content_null_witness :
    listHandler ⟨"/list", [], some "", none⟩ fs0 =
      (fs0, ⟨200, [("Content-Type", "application/json")],
             .json (.obj [("status", .num 1), ("message", .str "success"),
                          ("content", .null)])⟩) :=
  list_empty_dir_content_null fs0 0 "/list" [] none rfl rfl

/-- C5: uploading content to a destination assembled from plain segments
(no parent traversal, no empty or dot segments) and then downloading the
same path streams back exactly the uploaded bytes, whenever the upload
reported success. -/
theorem upload_then_get_roundtrip (segs : List (List Char))
    (content : List Nat) (now : Nat) (fs fs2 : Fs) (resp : Response)
    (u : String) (b : Option String) (gh : List (String × String))
    (gb : Option String) (gf : Option (List Nat))
    (hne : segs ≠ []) (hgood : ∀ s ∈ segs, goodSeg s)
    (hup : uploadHandler now
      ⟨u, [("X-FormFile-Path", String.mk (interc segs))], b, some content⟩
      fs = (fs2, resp))
    (hok : resp.code = 200) :
    getFileHandler
      ⟨String.mk (['/', 'g', 'e', 't', '/'] ++ interc segs), gh, gb, gf⟩
      fs2 =
      (fs2, ⟨200,
        [("Content-Type", "application/octet-stream"),
         ("Content-Disposition",
          "attachment; filename=" ++
            String.mk (Base (Join dataRoot (interc segs))))],
        .bytes content⟩) := by
  obtain ⟨s, t, rfl⟩ : ∃ s t, segs = s :: t := by
    cases segs with
    | nil => exact absurd rfl hne
    | cons s t => exact ⟨s, t, rfl⟩
  have hPne : interc (s :: t) ≠ [] :=
    interc_ne_nil s t (hgood s (by simp)).1
  unfold uploadHandler at hup
  simp only [headerGet, if_true, eq_self_iff_true,
    if_neg (string_mk_ne_empty (interc (s :: t)) hPne)] at hup
  split at hup
  · have h5 : sendJSONResponse 500 "创建目录失败" = resp :=
      congrArg Prod.snd hup
    rw [← h5] at hok
    simp [sendJSONResponse] at hok
  · rename_i fsmk heq1
    split at hup
    · have h5 : sendJSONResponse 500 "创建文件失败" = resp :=
        congrArg Prod.snd hup
      rw [← h5] at hok
      simp [sendJSONResponse] at hok
    · rename_i fs3 heq2
      have hfs : fs3 = fs2 := congrArg Prod.fst hup
      rw [uploadPath_eq (s :: t) (by simp) hgood] at heq2
      have hlook := createFile_lookup now fsmk
        (Join dataRoot (interc (s :: t))) content fs3 heq2
      rw [hfs] at hlook
      simp only [getFileHandler, pathAfterGet, List.cons_append,
        List.nil_append, List.drop_succ_cons, List.drop_zero]
      rw [show statFs fs2 (Join dataRoot (interc (s :: t))) =
          .ok (.file content now) from by unfold statFs; rw [hlook]]
theorem upload_then_get_roundtrip_witness :
    ([['a'], ['b']] : List (List Char)) ≠ [] ∧
    (∀ s ∈ ([['a'], ['b']] : List (List Char)), goodSeg s) ∧
    getFileHandler
      ⟨String.mk (['/', 'g', 'e', 't', '/'] ++ interc [['a'], ['b']]), [],
       none, none⟩
      (uploadHandler 7
        ⟨"/upload",
         [("X-FormFile-Path", String.mk (interc [['a'], ['b']]))], none,
         some [104, 105]⟩ fs0).1 =
      ((uploadHandler 7
        ⟨"/upload",
         [("X-FormFile-Path", String.mk (interc [['a'], ['b']]))], none,
         some [104, 105]⟩ fs0).1,
       ⟨200,
        [("Content-Type", "application/octet-stream"),
         ("Content-Disposition",
          "attachment; filename=" ++
            String.mk (Base (Join dataRoot (interc [['a'], ['b']]))))],
        .bytes [104, 105]⟩) :=
  ⟨by decide, by decide,
   upload_then_get_roundtrip [['a'], ['b']] [104, 105] 7 fs0 _ _ "/upload"
     none [] none none (by decide) (by decide) rfl rfl⟩

/-- C6: the download handler branches on the stat of the resolved path
exactly as claimed: stat not-exist yields a 404 JSON error envelope, any
other stat error a 500 JSON error envelope, a directory a 404 JSON error
envelope, and otherwise the file is opened and streamed with attachment
headers. -/
theorem get_branch_structure (r : Request) (fs : Fs) :
    getFileHandler r fs =
      (fs,
       match statFs fs (Join dataRoot (pathAfterGet r.urlPath)) with
       | .error .notExist => sendJSONResponse 404 "资源文件不存在"
       | .error .other => sendJSONResponse 500 "服务器错误，请稍后重试"
       | .ok (.dir _) => sendJSONResponse 404 "资源文件不存在"
       | .ok (.file c _) =>
         ⟨200,
          [("Content-Type", "application/octet-stream"),
           ("Content-Disposition", "attachment; filename=" ++
             String.mk (Base (Join dataRoot (pathAfterGet r.urlPath))))],
          .bytes c⟩) := by
  cases h : statFs fs (Join dataRoot (pathAfterGet r.urlPath)) with
  | error e => cases e <;> simp [getFileHandler, h, isNotExist]
  | ok n => cases n <;> simp [getFileHandler, h]

/-- C7: for both list and delete, a target path whose stat reports
not-exist yields HTTP 200 (not 404) with status 0 and a does-not-exist
message, with an empty content array in the list case — absence is a
benign result, not an error. -/
theorem absent_target_benign (fs : Fs) (p u : String)
    (hd : List (String × String)) (hf : Option (List Nat))
    (hp : p ≠ "")
    (hstat : statFs fs (Join dataRoot p.data) = .error .notExist) :
    listHandler ⟨u, hd, some p, hf⟩ fs =
      (fs, sendListResponse 200 "该目录不存在" 0 (some [])) ∧
    deleteHandler ⟨u, hd, some p, hf⟩ fs =
      (fs, sendDeleteResponse 200 0 "文件或目录不存在") := by
  constructor
  · simp only [listHandler, if_neg hp]
    rw [show Clean ("data/" ++ p).data = Join dataRoot p.data from
      clean_dataSlash p hp, hstat]
  · simp only [deleteHandler, if_neg hp]
    rw [hstat]

theorem absent_target_benign_witness :
    ("nope" : String) ≠ "" ∧
    statFs fs0 (Join dataRoot ("nope" : String).data) = .error .notExist ∧
    (listHandler ⟨"/list", [], some "nope", none⟩ fs0 =
       (fs0, sendListResponse 200 "该目录不存在" 0 (some [])) ∧
     deleteHandler ⟨"/list", [], some "nope", none⟩ fs0 =
       (fs0, sendDeleteResponse 200 0 "文件或目录不存在")) :=
  ⟨by decide, rfl,
   absent_target_benign fs0 "nope" "/list" [] none (by decide) rfl⟩

/-- C8: the path resolver maps the empty client string to the storage root
itself (both in the join form used by download/delete and in the list
handler's special case), maps every nonempty string to the lexical join of
the storage root with that string, and rejects nothing — in particular a
crafted `..` path resolves outside the storage root. -/
theorem path_resolver_spec :
    (Join dataRoot ("" : String).data = dataRoot ∧
     Clean ("data" : String).data = dataRoot) ∧
    (∀ p : String, p ≠ "" →
      Clean ("data/" ++ p).data = Join dataRoot p.data) ∧
    (Join dataRoot ("../../etc/passwd" : String).data =
       ("../etc/passwd" : String).data ∧
     underPath dataRoot
       (Join dataRoot ("../../etc/passwd" : String).data) = false) :=
  ⟨⟨by decide, by decide⟩, fun p hp => clean_dataSlash p hp,
   by decide, by decide⟩

theorem path_resolver_spec_witness :
    Clean ("data/" ++ "x").data = Join dataRoot ("x" : String).data :=
  path_resolver_spec.2.1 "x" (by decide)

/-- C9: the auth gate invokes the wrapped handler exactly when the
Authorization header lookup equals the configured token; consequently,
with an empty configured token, a request carrying no Authorization header
(whose lookup yields the empty string) passes the gate. -/
theorem token_gate_exact (next : Handler) (token : String) (r : Request)
    (fs : Fs) :
    (TokenMiddleware next token r fs =
      if headerGet r.headers "Authorization" = token then next r fs
      else (fs, httpError "Invalid token" 401)) ∧
    ((∀ kv ∈ r.headers, kv.1 ≠ "Authorization") → token = "" →
      TokenMiddleware next token r fs = next r fs) := by
  constructor
  · by_cases h : headerGet r.headers "Authorization" = token
    · simp [TokenMiddleware, h]
    · simp [TokenMiddleware, h]
  · intro habs htok
    have hget : headerGet r.headers "Authorization" = "" :=
      headerGet_absent r.headers "Authorization" habs
    simp [TokenMiddleware, hget, htok]

theorem token_gate_exact_witness :
    TokenMiddleware listHandler ""
      ⟨"/list", [("X-Other", "1")], none, none⟩ fs0 =
      listHandler ⟨"/list", [("X-Other", "1")], none, none⟩ fs0 :=
  (token_gate_exact listHandler ""
    ⟨"/list", [("X-Other", "1")], none, none⟩ fs0).2 (by decide) rfl

/-- C10: a delete request whose nonempty body path lexically resolves to
the storage root itself recursively removes the storage root and
everything beneath it, answering HTTP 200 with status 1; no path under the
root survives. -/
theorem delete_root_resolving_path (fs : Fs) (p : String) (m : Nat)
    (u : String) (hd : List (String × String)) (hf : Option (List Nat))
    (hp : p ≠ "") (hres : Join dataRoot p.data = dataRoot)
    (hroot : lookupFs fs.entries dataRoot = some (.node (.dir m))) :
    deleteHandler ⟨u, hd, some p, hf⟩ fs =
      (removeAll fs dataRoot, sendDeleteResponse 200 1 "删除成功") ∧
    ∀ kv ∈ (removeAll fs dataRoot).entries,
      underPath dataRoot kv.1 = false := by
  constructor
  · simp only [deleteHandler, if_neg hp, hres]
    rw [show statFs fs dataRoot = .ok (.dir m) from by
      unfold statFs; rw [hroot]]
  · intro kv hkv
    unfold removeAll at hkv
    simp only [List.mem_filter] at hkv
    simpa using hkv.2

theorem delete_root_resolving_path_witness :
    ("/" : String) ≠ "" ∧
    Join dataRoot ("/" : String).data = dataRoot ∧
    (deleteHandler ⟨"/delete", [], some "/", none⟩ fsWithFile =
       (removeAll fsWithFile dataRoot, sendDeleteResponse 200 1 "删除成功") ∧
     ∀ kv ∈ (removeAll fsWithFile dataRoot).entries,
       underPath dataRoot kv.1 = false) :=
  ⟨by decide, by decide,
   delete_root_resolving_path fsWithFile "/" 0 "/delete" [] none
     (by decide) (by decide) rfl⟩

end StoreGo
